import Mathlib

/-!
Verification of the StackStorm Mistral v2 runner
(`contrib/runners/mistral_v2/mistral_v2.py`) against its design
specification.  The Python module is shallowly embedded: dictionaries
become association lists over a JSON-like value type, client calls become
events recorded in a trace, and the two claims about in-place mutation are
settled over an explicit heap model with object addresses.
-/

namespace Mistral

/-- A Python value as used by the runner's context dictionaries: either a
string leaf or a nested dictionary (association list, keys unique by
construction of the operations below). -/
inductive Val where
  | s : String → Val
  | d : List (String × Val) → Val
deriving Repr

/-- A Python dictionary: an association list of string keys to values. -/
abbrev Dict := List (String × Val)

/-- `d.get(k)`: the value of the first entry with key `k`. -/
def dlookup : Dict → String → Option Val
  | [], _ => none
  | (k, v) :: rest, key => if k = key then some v else dlookup rest key

/-- `k in d.keys()`. -/
def dcontains (dic : Dict) (key : String) : Bool :=
  (dlookup dic key).isSome

/-- `d[k] = v`: overwrite the first entry with key `k` in place, otherwise
append a new entry (Python dict assignment preserves insertion order). -/
def dset : Dict → String → Val → Dict
  | [], key, v => [(key, v)]
  | (k, w) :: rest, key, v =>
      if k = key then (k, v) :: rest else (k, w) :: dset rest key v

/-- `del d[k]`: remove the entry with key `k`. -/
def ddel : Dict → String → Dict
  | [], _ => []
  | (k, w) :: rest, key => if k = key then ddel rest key else (k, w) :: ddel rest key

/-- `d1.update(d2)`: set each entry of `d2` into `d1`, in order. -/
def dupdate (d₁ d₂ : Dict) : Dict :=
  d₂.foldl (fun acc kv => dset acc kv.1 kv.2) d₁

/-- Python truthiness of an optional value (`None`, `''` and `{}` are
falsy; any other string or non-empty dict is truthy). -/
def truthy : Option Val → Bool
  | none => false
  | some (.s str) => str ≠ ""
  | some (.d entries) => !entries.isEmpty

/-- Exceptions the embedded fragments can raise. -/
inductive PyErr where
  | attributeError   -- e.g. `.keys()` called on a string value
  | valueError (msg : String)
  | exception (msg : String)
deriving Repr, DecidableEq

/-- `MistralRunner._build_mistral_context(parent, current)`, value level.
`parent = copy.deepcopy(parent)` severs aliasing, so the returned value is
computed purely (the frame property of the deep copy is proved separately
over the heap model below).  A `parent` of `None` is represented by the
empty dictionary (both are falsy and neither has a `mistral` key).  If the
`mistral` entry of `parent` is a string, the source's
`orig_parent_context.keys()` raises `AttributeError`. -/
def buildMistralContext (parent : Dict) (current : Dict) : Except PyErr Dict :=
  if parent.isEmpty then
    .ok [("mistral", .d current)]
  else if dcontains parent "mistral" then
    match dlookup parent "mistral" with
    | some (.d orig₀) =>
        -- actual_parent = dict(); extract workflow_name
        let step₁ : Dict × Dict :=
          match dlookup orig₀ "workflow_name" with
          | some v => (dset [] "workflow_name" v, ddel orig₀ "workflow_name")
          | none => ([], orig₀)
        -- extract workflow_execution_id
        let step₂ : Dict × Dict :=
          match dlookup step₁.2 "workflow_execution_id" with
          | some v => (dset step₁.1 "workflow_execution_id" v,
                       ddel step₁.2 "workflow_execution_id")
          | none => step₁
        -- context['mistral'] = orig_parent_context; .update(current); ['parent'] = actual_parent
        let merged := dset (dupdate step₂.2 current) "parent" (.d step₂.1)
        .ok [("mistral", .d merged)]
    | _ => .error .attributeError
  else
    .ok [("mistral", .d current)]

theorem dlookup_dset_self (d : Dict) (k : String) (v : Val) :
    dlookup (dset d k v) k = some v := by
  induction d with
  | nil => simp [dset, dlookup]
  | cons hd t ih =>
      obtain ⟨k₀, w⟩ := hd
      by_cases h : k₀ = k
      · simp [dset, h, dlookup]
      · simp [dset, h, dlookup, ih]

theorem dlookup_dset_ne (d : Dict) (k k' : String) (v : Val) (h : k ≠ k') :
    dlookup (dset d k v) k' = dlookup d k' := by
  induction d with
  | nil => simp [dset, dlookup, h]
  | cons hd t ih =>
      obtain ⟨k₀, w⟩ := hd
      by_cases h₀ : k₀ = k
      · subst h₀
        simp [dset, dlookup, h]
      · simp [dset, h₀, dlookup, ih]

/-- Every successful result of the context merger is a singleton dictionary
with key `mistral` holding a dictionary. -/
theorem buildMistralContext_ok_shape (p c r : Dict)
    (h : buildMistralContext p c = .ok r) : ∃ m, r = [("mistral", Val.d m)] := by
  by_cases hp : p.isEmpty
  · simp [buildMistralContext, hp] at h
    exact ⟨c, h.symm⟩
  · by_cases hm : dcontains p "mistral"
    · cases hv : dlookup p "mistral" with
      | none => simp [buildMistralContext, hp, hm, hv] at h
      | some v =>
          cases v with
          | s str => simp [buildMistralContext, hp, hm, hv] at h
          | d m =>
              simp [buildMistralContext, hp, hm, hv] at h
              exact ⟨_, h.symm⟩
    · simp [buildMistralContext, hp, hm] at h
      exact ⟨c, h.symm⟩

/-- Merging onto any parent of the shape the merger itself produces yields
a `mistral` sub-map whose `parent` entry is a dictionary with no further
`parent` key. -/
theorem buildMistralContext_parent_trimmed (m c r : Dict)
    (h : buildMistralContext [("mistral", Val.d m)] c = .ok r) :
    ∃ mm p, r = [("mistral", Val.d mm)] ∧ dlookup mm "parent" = some (Val.d p) ∧
      dlookup p "parent" = none := by
  cases h₁ : dlookup m "workflow_name" with
  | none =>
      cases h₂ : dlookup m "workflow_execution_id" with
      | none =>
          simp [buildMistralContext, dcontains, dlookup, h₁, h₂] at h
          refine ⟨_, [], h.symm, dlookup_dset_self _ _ _, rfl⟩
      | some v₂ =>
          simp [buildMistralContext, dcontains, dlookup, h₁, h₂] at h
          refine ⟨_, _, h.symm, dlookup_dset_self _ _ _, ?_⟩
          rw [dlookup_dset_ne _ _ _ _ (by decide)]
          rfl
  | some v₁ =>
      cases h₂ : dlookup (ddel m "workflow_name") "workflow_execution_id" with
      | none =>
          simp [buildMistralContext, dcontains, dlookup, h₁, h₂] at h
          refine ⟨_, _, h.symm, dlookup_dset_self _ _ _, ?_⟩
          rw [dlookup_dset_ne _ _ _ _ (by decide)]
          rfl
      | some v₂ =>
          simp [buildMistralContext, dcontains, dlookup, h₁, h₂] at h
          refine ⟨_, _, h.symm, dlookup_dset_self _ _ _, ?_⟩
          rw [dlookup_dset_ne _ _ _ _ (by decide), dlookup_dset_ne _ _ _ _ (by decide)]
          rfl

/-- Claim C1 (code-bug evidence): merging a caller context whose `mistral`
sub-map is `{execution_id: "X", workflow_name: "W", other: "o"}` with
current fields `{execution_id: "Y", workflow_name: "V"}` yields a
`mistral.parent` equal to `{workflow_name: "W"}` only.  The parent's
`execution_id` is never moved into `parent`: the merger trims the key
`workflow_execution_id`, which no writer in this module ever sets (both
`start_workflow` and `resume_workflow` store the id under `execution_id`),
so the claimed `parent = {execution_id: X, workflow_name: W}` fails. -/
theorem buildMistralContext_drops_parent_execution_id :
    ∃ mm p : Dict,
      buildMistralContext
          [("mistral", Val.d [("execution_id", Val.s "X"), ("workflow_name", Val.s "W"),
            ("other", Val.s "o")])]
          [("execution_id", Val.s "Y"), ("workflow_name", Val.s "V")] =
        Except.ok [("mistral", Val.d mm)] ∧
      dlookup mm "parent" = some (Val.d p) ∧
      dlookup p "workflow_name" = some (Val.s "W") ∧
      dlookup p "execution_id" = none := by
  refine ⟨[("execution_id", Val.s "Y"), ("other", Val.s "o"), ("workflow_name", Val.s "V"),
    ("parent", Val.d [("workflow_name", Val.s "W")])],
    [("workflow_name", Val.s "W")], rfl, rfl, rfl, rfl⟩

/-- Claim C5: applying the context merger three times in sequence
(grandparent merged into parent, the result merged into the child) yields
a context whose `mistral.parent` is a dictionary carrying no further
`parent` key — history depth is at most one regardless of call depth. -/
theorem mergeThrice_parent_depth_le_one (c₀ e₀ e₁ e₂ r : Dict)
    (h : (do
        let a ← buildMistralContext c₀ e₀
        let b ← buildMistralContext a e₁
        buildMistralContext b e₂) = Except.ok r) :
    ∃ mm p, dlookup r "mistral" = some (Val.d mm) ∧
      dlookup mm "parent" = some (Val.d p) ∧ dlookup p "parent" = none := by
  cases ha : buildMistralContext c₀ e₀ with
  | error e => rw [ha] at h; simp [Bind.bind, Except.bind] at h
  | ok a =>
      rw [ha] at h
      simp only [Bind.bind, Except.bind] at h
      cases hb : buildMistralContext a e₁ with
      | error e => rw [hb] at h; simp at h
      | ok b =>
          rw [hb] at h
          obtain ⟨mb, rfl⟩ := buildMistralContext_ok_shape a e₁ b hb
          obtain ⟨mm, p, rfl, hmm, hp⟩ := buildMistralContext_parent_trimmed mb e₂ r h
          exact ⟨mm, p, by simp [dlookup], hmm, hp⟩

/-- Witness for C5 at a concrete three-level chain. -/
theorem mergeThrice_parent_depth_le_one_witness :
    ∃ mm p,
      dlookup [("mistral", Val.d [("execution_id", Val.s "3"),
          ("parent", Val.d [("workflow_name", Val.s "B")]),
          ("workflow_name", Val.s "C")])] "mistral" = some (Val.d mm) ∧
      dlookup mm "parent" = some (Val.d p) ∧ dlookup p "parent" = none :=
  mergeThrice_parent_depth_le_one []
    [("execution_id", Val.s "1"), ("workflow_name", Val.s "A")]
    [("execution_id", Val.s "2"), ("workflow_name", Val.s "B")]
    [("execution_id", Val.s "3"), ("workflow_name", Val.s "C")]
    [("mistral", Val.d [("execution_id", Val.s "3"),
      ("parent", Val.d [("workflow_name", Val.s "B")]),
      ("workflow_name", Val.s "C")])] (by rfl)

/-- A Workbook definition as consumed by `_find_default_workflow`: its
`name` field and the key list of its `workflows` mapping, in order (the
source indexes `def_dict['workflows'].keys()[0]`). -/
structure WorkbookDef where
  name : String
  workflows : List String

/-- `s[s.rindex('.') + 1:]`: the suffix after the last dot; Python's
`str.rindex` raises `ValueError` when the string contains no dot. -/
def afterLastDot (str : String) : Except PyErr String :=
  let rev := str.toList.reverse
  if rev.any (· = '.') then
    .ok (String.mk ((rev.takeWhile (· ≠ '.')).reverse))
  else .error (.valueError "substring not found")

/-- `MistralRunner._find_default_workflow(def_dict)`.  `workflowParam` is
`self.runner_parameters.get('workflow')`; `none` and the empty string are
both falsy under the source's `if not fully_qualified_wf_name`. -/
def findDefaultWorkflow (defDict : WorkbookDef) (workflowParam : Option String) :
    Except PyErr String :=
  let numWorkflows := defDict.workflows.length
  if numWorkflows > 1 then
    match workflowParam with
    | none => .error (.valueError
        "Workbook definition is detected. Default workflow cannot be determined.")
    | some fq =>
        if fq = "" then
          .error (.valueError
            "Workbook definition is detected. Default workflow cannot be determined.")
        else do
          let wfName ← afterLastDot fq
          if wfName ∈ defDict.workflows then .ok fq
          else .error (.valueError
            ("Unable to find the workflow \x22" ++ fq ++ "\x22 in the workbook."))
  else if numWorkflows = 1 then
    .ok (defDict.name ++ "." ++ defDict.workflows.headD "")
  else
    .error (.exception "There are no workflows in the workbook.")

/-- Claim C7: default-workflow resolution on a Workbook — exactly one
declared workflow returns the workbook name (the action reference, as
validated by `_check_name`) joined with that workflow name; more than one
fails without an explicit (non-empty) `workflow` selection, fails when the
selection's last dotted component matches no declared workflow, and
otherwise returns the selected fully qualified name; zero workflows
fails. -/
theorem findDefaultWorkflow_cases (wb : WorkbookDef) (param : Option String) :
    (wb.workflows.length = 1 →
        findDefaultWorkflow wb param = .ok (wb.name ++ "." ++ wb.workflows.headD "")) ∧
    (wb.workflows.length > 1 → (param = none ∨ param = some "") →
        findDefaultWorkflow wb param = .error (.valueError
          "Workbook definition is detected. Default workflow cannot be determined.")) ∧
    (∀ fq last, wb.workflows.length > 1 → param = some fq → fq ≠ "" →
        afterLastDot fq = .ok last → last ∉ wb.workflows →
        findDefaultWorkflow wb param = .error (.valueError
          ("Unable to find the workflow \x22" ++ fq ++ "\x22 in the workbook."))) ∧
    (∀ fq last, wb.workflows.length > 1 → param = some fq → fq ≠ "" →
        afterLastDot fq = .ok last → last ∈ wb.workflows →
        findDefaultWorkflow wb param = .ok fq) ∧
    (wb.workflows.length = 0 →
        findDefaultWorkflow wb param = .error
          (.exception "There are no workflows in the workbook.")) := by
  refine ⟨?_, ?_, ?_, ?_, ?_⟩
  · intro h1
    simp [findDefaultWorkflow, h1]
  · rintro hgt (rfl | rfl) <;> simp [findDefaultWorkflow, hgt]
  · rintro fq last hgt rfl hne hdot hmem
    simp [findDefaultWorkflow, hgt, hne, hdot, hmem, Bind.bind, Except.bind]
  · rintro fq last hgt rfl hne hdot hmem
    simp [findDefaultWorkflow, hgt, hne, hdot, hmem, Bind.bind, Except.bind]
  · intro h0
    simp [findDefaultWorkflow, h0]

/-- Witness for C7: a two-workflow workbook with a valid selection resolves
to the selection; the same workbook without a selection fails; a singleton
workbook resolves to its sole workflow. -/
theorem findDefaultWorkflow_cases_witness :
    findDefaultWorkflow ⟨"pack.act", ["wf1", "wf2"]⟩ (some "pack.act.wf2") =
      .ok "pack.act.wf2" ∧
    findDefaultWorkflow ⟨"pack.act", ["wf1", "wf2"]⟩ none = .error (.valueError
      "Workbook definition is detected. Default workflow cannot be determined.") ∧
    findDefaultWorkflow ⟨"pack.act", ["wf1"]⟩ none = .ok "pack.act.wf1" :=
  ⟨(findDefaultWorkflow_cases ⟨"pack.act", ["wf1", "wf2"]⟩
      (some "pack.act.wf2")).2.2.2.1 "pack.act.wf2" "wf2" (by decide) rfl (by decide)
      (by rfl) (by decide),
   (findDefaultWorkflow_cases ⟨"pack.act", ["wf1", "wf2"]⟩ none).2.1
      (by decide) (Or.inl rfl),
   (findDefaultWorkflow_cases ⟨"pack.act", ["wf1"]⟩ none).1 (by decide)⟩

/-- Client calls issued by the definition-reconciliation helpers. -/
inductive SaveEvent where
  | wbGet (name : String)
  | wbDelete (name : String)
  | wbCreate (defYaml : String)
  | wbUpdate (defYaml : String)
  | wfGet (name : String)
  | wfDelete (name : String)
  | wfCreate (defYaml : String)
  | wfUpdate (defYaml : String)
deriving Repr, DecidableEq

/-- The remote engine's definition stores as observed by `_save_workbook`
and `_save_workflow`: the registered definition text by name (`none` when
the `get` raises), and the definition text the engine reports on a freshly
created workbook/workflow (normally the submitted yaml itself). -/
structure EngineDefs where
  workbook : String → Option String
  workflow : String → Option String
  wbCreatedDef : String → String
  wfCreatedDef : String → String

/-- `MistralRunner._save_workbook(name, def_yaml)` as the trace of client
calls it issues.  A failing `workbooks.get` takes the except branch: the
stale opposite-kind `workflows.delete` is attempted with any exception
swallowed (`except: pass`), then the workbook is created; finally the
definition of the fetched-or-created workbook is compared with `def_yaml`
and an update is issued only when the texts differ. -/
def saveWorkbook (eng : EngineDefs) (name defYaml : String) : List SaveEvent :=
  match eng.workbook name with
  | some stored =>
      [.wbGet name] ++ (if stored ≠ defYaml then [.wbUpdate defYaml] else [])
  | none =>
      [.wbGet name, .wfDelete name, .wbCreate defYaml] ++
        (if eng.wbCreatedDef defYaml ≠ defYaml then [.wbUpdate defYaml] else [])

/-- `MistralRunner._save_workflow(name, def_yaml)`, mirror image of
`saveWorkbook` with the kinds swapped. -/
def saveWorkflow (eng : EngineDefs) (name defYaml : String) : List SaveEvent :=
  match eng.workflow name with
  | some stored =>
      [.wfGet name] ++ (if stored ≠ defYaml then [.wfUpdate defYaml] else [])
  | none =>
      [.wfGet name, .wbDelete name, .wfCreate defYaml] ++
        (if eng.wfCreatedDef defYaml ≠ defYaml then [.wfUpdate defYaml] else [])

/-- Claim C8: when no same-kind definition is registered, reconciliation
deletes the stale opposite-kind registration first and then creates the new
one, with the delete's outcome (including not-found) never affecting the
result — the traces are independent of the opposite-kind store; when a
same-kind definition exists with byte-identical text, no create or update
call is issued.  Stated for both `_save_workbook` and `_save_workflow`. -/
theorem saveDefinition_reconciliation (eng eng' : EngineDefs) (name defYaml : String) :
    (eng.workbook name = none → ∃ rest, saveWorkbook eng name defYaml =
        [.wbGet name, .wfDelete name, .wbCreate defYaml] ++ rest) ∧
    (eng.workbook name = some defYaml → saveWorkbook eng name defYaml = [.wbGet name]) ∧
    (eng.workbook = eng'.workbook → eng.wbCreatedDef = eng'.wbCreatedDef →
        saveWorkbook eng name defYaml = saveWorkbook eng' name defYaml) ∧
    (eng.workflow name = none → ∃ rest, saveWorkflow eng name defYaml =
        [.wfGet name, .wbDelete name, .wfCreate defYaml] ++ rest) ∧
    (eng.workflow name = some defYaml → saveWorkflow eng name defYaml = [.wfGet name]) ∧
    (eng.workflow = eng'.workflow → eng.wfCreatedDef = eng'.wfCreatedDef →
        saveWorkflow eng name defYaml = saveWorkflow eng' name defYaml) := by
  refine ⟨?_, ?_, ?_, ?_, ?_, ?_⟩
  · intro h
    refine ⟨if eng.wbCreatedDef defYaml = defYaml then [] else [.wbUpdate defYaml], ?_⟩
    simp [saveWorkbook, h]
  · intro h
    simp [saveWorkbook, h]
  · intro h₁ h₂
    simp [saveWorkbook, h₁, h₂]
  · intro h
    refine ⟨if eng.wfCreatedDef defYaml = defYaml then [] else [.wfUpdate defYaml], ?_⟩
    simp [saveWorkflow, h]
  · intro h
    simp [saveWorkflow, h]
  · intro h₁ h₂
    simp [saveWorkflow, h₁, h₂]

/-- Witness for C8: a concrete engine with a stale workflow `pack.wf` and
no workbook of that name — reconciling a workbook deletes the stale
workflow before creating; an engine already holding the identical workbook
text issues a get only. -/
theorem saveDefinition_reconciliation_witness :
    (∃ rest, saveWorkbook
        ⟨fun _ => none, fun n => if n = "pack.wf" then some "old" else none,
         fun y => y, fun y => y⟩ "pack.wf" "text" =
      [.wbGet "pack.wf", .wfDelete "pack.wf", .wbCreate "text"] ++ rest) ∧
    saveWorkbook
        ⟨fun n => if n = "pack.wf" then some "text" else none, fun _ => none,
         fun y => y, fun y => y⟩ "pack.wf" "text" = [.wbGet "pack.wf"] :=
  ⟨(saveDefinition_reconciliation
      ⟨fun _ => none, fun n => if n = "pack.wf" then some "old" else none,
       fun y => y, fun y => y⟩
      ⟨fun _ => none, fun n => if n = "pack.wf" then some "old" else none,
       fun y => y, fun y => y⟩ "pack.wf" "text").1 rfl,
   (saveDefinition_reconciliation
      ⟨fun n => if n = "pack.wf" then some "text" else none, fun _ => none,
       fun y => y, fun y => y⟩
      ⟨fun n => if n = "pack.wf" then some "text" else none, fun _ => none,
       fun y => y, fun y => y⟩ "pack.wf" "text").2.1 (by simp)⟩

/-- Local liveaction status values.  Modelled from the spec: the concrete
string constants (`LIVEACTION_STATUS_RUNNING`, ...) live in
`st2common.constants.action`, outside this repository's source tree; the
spec fixes the status set {RUNNING, PAUSING, PAUSED, CANCELING, CANCELLED,
SUCCEEDED, FAILED}. -/
inductive LAStatus where
  | running
  | pausing
  | paused
  | resuming
  | canceling
  | cancelled
  | succeeded
  | failed
deriving Repr, DecidableEq

/-- A child action-execution record as the cascade reads it back from the
orchestrator's store (`ActionExecution.get` on each id of
`self.execution.children`, with the record's `runner['name']`, `status`
and `liveaction['id']`); the store lookup itself is assumed consistent. -/
structure ChildExec where
  runnerName : String
  status : LAStatus
  liveactionId : String

/-- Remote-engine and orchestrator calls issued by the cascading lifecycle
operations, in program order. -/
inductive LifecycleEvent where
  | execUpdate (executionId : Val) (state : String)
  | actionExecUpdate (actionExecutionId : Val) (state : String)
  | requestPause (liveactionId : String)
  | requestResume (liveactionId : String)
  | requestCancellation (liveactionId : String)
deriving Repr

/-- The runner state read by `pause`/`resume`/`cancel`: `self.context`,
the resolved children of `self.execution`, and the two constant sets from
`st2common` (`WORKFLOW_RUNNER_TYPES`, `LIVEACTION_CANCELABLE_STATES`),
kept as parameters because they are defined outside this repository's
source tree. -/
structure LifecycleEnv where
  context : Dict
  children : List ChildExec
  workflowRunnerTypes : List String
  cancelableStatuses : List LAStatus

/-- `self.context.get('mistral', dict())`; raises `AttributeError` further
down when the entry is a string rather than a dictionary. -/
def getMistralCtx (ctx : Dict) : Except PyErr Dict :=
  match dlookup ctx "mistral" with
  | none => .ok []
  | some (.d m) => .ok m
  | some (.s _) => .error .attributeError

/-- The parent-side transition of `pause`/`resume`/`cancel`: when
`'parent' in self.context` and `mistral_ctx.get('action_execution_id')` is
truthy, update the corresponding action execution to `state`. -/
def parentTransition (ctx mctx : Dict) (state : String) : List LifecycleEvent :=
  if dcontains ctx "parent" && truthy (dlookup mctx "action_execution_id") then
    [.actionExecUpdate ((dlookup mctx "action_execution_id").getD (.s "")) state]
  else []

/-- `MistralRunner.pause`: root execution to `PAUSED`, then the parent-side
action execution, then `request_pause` for every workflow-typed child in
`RUNNING` status; reports `PAUSING`. -/
def pauseRun (env : LifecycleEnv) : Except PyErr (List LifecycleEvent × LAStatus) :=
  match getMistralCtx env.context with
  | .error e => .error e
  | .ok mctx =>
      if truthy (dlookup mctx "execution_id") then
        .ok (.execUpdate ((dlookup mctx "execution_id").getD (.s "")) "PAUSED" ::
          (parentTransition env.context mctx "PAUSED" ++
            (env.children.filter (fun c =>
                env.workflowRunnerTypes.contains c.runnerName &&
                c.status == LAStatus.running)).map
              (fun c => .requestPause c.liveactionId)), .pausing)
      else .error (.exception "Unable to pause because mistral execution_id is missing.")

/-- `MistralRunner.resume`: the parent-side action execution is updated to
`RUNNING` first, then the root execution, then `request_resume` for every
workflow-typed child in `PAUSED` status; reports `RUNNING`. -/
def resumeRun (env : LifecycleEnv) : Except PyErr (List LifecycleEvent × LAStatus) :=
  match getMistralCtx env.context with
  | .error e => .error e
  | .ok mctx =>
      if truthy (dlookup mctx "execution_id") then
        .ok (parentTransition env.context mctx "RUNNING" ++
          (.execUpdate ((dlookup mctx "execution_id").getD (.s "")) "RUNNING" ::
            (env.children.filter (fun c =>
                env.workflowRunnerTypes.contains c.runnerName &&
                c.status == LAStatus.paused)).map
              (fun c => .requestResume c.liveactionId)), .running)
      else .error (.exception "Unable to resume because mistral execution_id is missing.")

/-- `MistralRunner.cancel`: root execution to `CANCELLED`, then the
parent-side action execution, then `request_cancellation` for every
workflow-typed child in a cancelable status; reports `CANCELING`. -/
def cancelRun (env : LifecycleEnv) : Except PyErr (List LifecycleEvent × LAStatus) :=
  match getMistralCtx env.context with
  | .error e => .error e
  | .ok mctx =>
      if truthy (dlookup mctx "execution_id") then
        .ok (.execUpdate ((dlookup mctx "execution_id").getD (.s "")) "CANCELLED" ::
          (parentTransition env.context mctx "CANCELLED" ++
            (env.children.filter (fun c =>
                env.workflowRunnerTypes.contains c.runnerName &&
                env.cancelableStatuses.contains c.status)).map
              (fun c => .requestCancellation c.liveactionId)), .canceling)
      else .error (.exception "Unable to cancel because mistral execution_id is missing.")

/-- Is the event a lifecycle request to a local child execution? -/
def isChildRequest : LifecycleEvent → Bool
  | .requestPause _ => true
  | .requestResume _ => true
  | .requestCancellation _ => true
  | _ => false

theorem filter_isChildRequest_map_pause (l : List ChildExec) :
    ((l.map (fun c => LifecycleEvent.requestPause c.liveactionId)).filter isChildRequest) =
      l.map (fun c => LifecycleEvent.requestPause c.liveactionId) := by
  induction l with
  | nil => rfl
  | cons hd t ih => simp [isChildRequest, ih]

theorem filter_isChildRequest_map_resume (l : List ChildExec) :
    ((l.map (fun c => LifecycleEvent.requestResume c.liveactionId)).filter isChildRequest) =
      l.map (fun c => LifecycleEvent.requestResume c.liveactionId) := by
  induction l with
  | nil => rfl
  | cons hd t ih => simp [isChildRequest, ih]

theorem filter_isChildRequest_map_cancel (l : List ChildExec) :
    ((l.map (fun c => LifecycleEvent.requestCancellation c.liveactionId)).filter
        isChildRequest) =
      l.map (fun c => LifecycleEvent.requestCancellation c.liveactionId) := by
  induction l with
  | nil => rfl
  | cons hd t ih => simp [isChildRequest, ih]

theorem filter_isChildRequest_parentTransition (ctx mctx : Dict) (st : String) :
    (parentTransition ctx mctx st).filter isChildRequest = [] := by
  unfold parentTransition
  split <;> simp [isChildRequest]

/-- Claim C2 (counterexample): on a context carrying a `parent` marker and
an `action_execution_id`, `resume` issues the parent-side action-execution
transition as its first call and the remote root transition only second,
contradicting the claimed root-first order for all three operations. -/
theorem resume_updates_parent_before_root :
    resumeRun
      { context := [("mistral", Val.d [("execution_id", Val.s "ex1"),
          ("action_execution_id", Val.s "ae1")]), ("parent", Val.d [("k", Val.s "v")])],
        children := [⟨"mistral-v2", .paused, "lv1"⟩],
        workflowRunnerTypes := ["mistral-v2"],
        cancelableStatuses := [.running, .pausing, .paused, .resuming] } =
    .ok ([.actionExecUpdate (Val.s "ae1") "RUNNING",
          .execUpdate (Val.s "ex1") "RUNNING",
          .requestResume "lv1"], .running) := rfl

/-- Claim C2 (amended): `pause` and `cancel` issue the remote root
transition first, then the parent-side action-execution transition (when
the context carries a parent marker and an action_execution_id), then the
child lifecycle requests; `resume` issues the parent-side transition
first, then the remote root transition, then the child requests. -/
theorem cascade_call_order (env : LifecycleEnv) :
    (∀ tr st, pauseRun env = .ok (tr, st) →
      ∃ eid pp cp, tr = .execUpdate eid "PAUSED" :: (pp ++ cp) ∧
        (pp = [] ∨ ∃ aid, pp = [.actionExecUpdate aid "PAUSED"]) ∧
        ∀ e ∈ cp, ∃ lv, e = .requestPause lv) ∧
    (∀ tr st, resumeRun env = .ok (tr, st) →
      ∃ eid pp cp, tr = pp ++ (.execUpdate eid "RUNNING" :: cp) ∧
        (pp = [] ∨ ∃ aid, pp = [.actionExecUpdate aid "RUNNING"]) ∧
        ∀ e ∈ cp, ∃ lv, e = .requestResume lv) ∧
    (∀ tr st, cancelRun env = .ok (tr, st) →
      ∃ eid pp cp, tr = .execUpdate eid "CANCELLED" :: (pp ++ cp) ∧
        (pp = [] ∨ ∃ aid, pp = [.actionExecUpdate aid "CANCELLED"]) ∧
        ∀ e ∈ cp, ∃ lv, e = .requestCancellation lv) := by
  have hpp : ∀ (mctx : Dict) (stw : String), parentTransition env.context mctx stw = [] ∨
      ∃ aid, parentTransition env.context mctx stw = [.actionExecUpdate aid stw] := by
    intro mctx stw
    unfold parentTransition
    split
    · exact Or.inr ⟨_, rfl⟩
    · exact Or.inl rfl
  refine ⟨?_, ?_, ?_⟩
  · intro tr st h
    simp only [pauseRun] at h
    cases hm : getMistralCtx env.context with
    | error e => rw [hm] at h; cases h
    | ok mctx =>
        rw [hm] at h
        by_cases ht : truthy (dlookup mctx "execution_id") = true
        · simp only [ht, if_true] at h
          obtain ⟨rfl, rfl⟩ : _ ∧ _ := by
            have := h
            injection this with h1
            injection h1 with h2 h3
            exact ⟨h2.symm, h3.symm⟩
          refine ⟨_, parentTransition env.context mctx "PAUSED", _, rfl, hpp mctx "PAUSED", ?_⟩
          intro e he
          rw [List.mem_map] at he
          obtain ⟨c, _, rfl⟩ := he
          exact ⟨c.liveactionId, rfl⟩
        · simp only [eq_false_of_ne_true ht, if_false] at h
          cases h
  · intro tr st h
    simp only [resumeRun] at h
    cases hm : getMistralCtx env.context with
    | error e => rw [hm] at h; cases h
    | ok mctx =>
        rw [hm] at h
        by_cases ht : truthy (dlookup mctx "execution_id") = true
        · simp only [ht, if_true] at h
          obtain ⟨rfl, rfl⟩ : _ ∧ _ := by
            have := h
            injection this with h1
            injection h1 with h2 h3
            exact ⟨h2.symm, h3.symm⟩
          refine ⟨_, parentTransition env.context mctx "RUNNING", _, rfl, hpp mctx "RUNNING", ?_⟩
          intro e he
          rw [List.mem_map] at he
          obtain ⟨c, _, rfl⟩ := he
          exact ⟨c.liveactionId, rfl⟩
        · simp only [eq_false_of_ne_true ht, if_false] at h
          cases h
  · intro tr st h
    simp only [cancelRun] at h
    cases hm : getMistralCtx env.context with
    | error e => rw [hm] at h; cases h
    | ok mctx =>
        rw [hm] at h
        by_cases ht : truthy (dlookup mctx "execution_id") = true
        · simp only [ht, if_true] at h
          obtain ⟨rfl, rfl⟩ : _ ∧ _ := by
            have := h
            injection this with h1
            injection h1 with h2 h3
            exact ⟨h2.symm, h3.symm⟩
          refine ⟨_, parentTransition env.context mctx "CANCELLED", _, rfl,
            hpp mctx "CANCELLED", ?_⟩
          intro e he
          rw [List.mem_map] at he
          obtain ⟨c, _, rfl⟩ := he
          exact ⟨c.liveactionId, rfl⟩
        · simp only [eq_false_of_ne_true ht, if_false] at h
          cases h

/-- Witness for the amended C2 order at a concrete resume call. -/
theorem cascade_call_order_witness :
    ∃ eid pp cp,
      ([LifecycleEvent.actionExecUpdate (Val.s "ae1") "RUNNING",
        LifecycleEvent.execUpdate (Val.s "ex1") "RUNNING",
        LifecycleEvent.requestResume "lv1"] : List LifecycleEvent) =
        pp ++ (LifecycleEvent.execUpdate eid "RUNNING" :: cp) ∧
      (pp = [] ∨ ∃ aid, pp = [LifecycleEvent.actionExecUpdate aid "RUNNING"]) ∧
      (∀ e ∈ cp, ∃ lv, e = LifecycleEvent.requestResume lv) :=
  (cascade_call_order
    { context := [("mistral", Val.d [("execution_id", Val.s "ex1"),
        ("action_execution_id", Val.s "ae1")]), ("parent", Val.d [("k", Val.s "v")])],
      children := [⟨"mistral-v2", .paused, "lv1"⟩],
      workflowRunnerTypes := ["mistral-v2"],
      cancelableStatuses := [.running, .pausing, .paused, .resuming] }).2.1
    [.actionExecUpdate (Val.s "ae1") "RUNNING",
     .execUpdate (Val.s "ex1") "RUNNING",
     .requestResume "lv1"] .running rfl

/-- Claim C9: in each cascading operation, the lifecycle requests issued to
local children are exactly those for the children whose runner name is
workflow-typed and whose status matches the operation's precondition —
`RUNNING` for pause, `PAUSED` for resume, and membership in the cancelable
status set for cancel. -/
theorem cascade_child_filter (env : LifecycleEnv) :
    (∀ tr st, pauseRun env = .ok (tr, st) →
      tr.filter isChildRequest = (env.children.filter (fun c =>
          env.workflowRunnerTypes.contains c.runnerName &&
          c.status == LAStatus.running)).map
        (fun c => LifecycleEvent.requestPause c.liveactionId)) ∧
    (∀ tr st, resumeRun env = .ok (tr, st) →
      tr.filter isChildRequest = (env.children.filter (fun c =>
          env.workflowRunnerTypes.contains c.runnerName &&
          c.status == LAStatus.paused)).map
        (fun c => LifecycleEvent.requestResume c.liveactionId)) ∧
    (∀ tr st, cancelRun env = .ok (tr, st) →
      tr.filter isChildRequest = (env.children.filter (fun c =>
          env.workflowRunnerTypes.contains c.runnerName &&
          env.cancelableStatuses.contains c.status)).map
        (fun c => LifecycleEvent.requestCancellation c.liveactionId)) := by
  refine ⟨?_, ?_, ?_⟩
  · intro tr st h
    simp only [pauseRun] at h
    cases hm : getMistralCtx env.context with
    | error e => rw [hm] at h; cases h
    | ok mctx =>
        rw [hm] at h
        by_cases ht : truthy (dlookup mctx "execution_id") = true
        · simp only [ht, if_true] at h
          obtain ⟨rfl, rfl⟩ : _ ∧ _ := by
            have := h
            injection this with h1
            injection h1 with h2 h3
            exact ⟨h2.symm, h3.symm⟩
          simp [isChildRequest, List.filter_append,
            filter_isChildRequest_parentTransition, filter_isChildRequest_map_pause]
        · simp only [eq_false_of_ne_true ht, if_false] at h
          cases h
  · intro tr st h
    simp only [resumeRun] at h
    cases hm : getMistralCtx env.context with
    | error e => rw [hm] at h; cases h
    | ok mctx =>
        rw [hm] at h
        by_cases ht : truthy (dlookup mctx "execution_id") = true
        · simp only [ht, if_true] at h
          obtain ⟨rfl, rfl⟩ : _ ∧ _ := by
            have := h
            injection this with h1
            injection h1 with h2 h3
            exact ⟨h2.symm, h3.symm⟩
          simp [isChildRequest, List.filter_append,
            filter_isChildRequest_parentTransition, filter_isChildRequest_map_resume]
        · simp only [eq_false_of_ne_true ht, if_false] at h
          cases h
  · intro tr st h
    simp only [cancelRun] at h
    cases hm : getMistralCtx env.context with
    | error e => rw [hm] at h; cases h
    | ok mctx =>
        rw [hm] at h
        by_cases ht : truthy (dlookup mctx "execution_id") = true
        · simp only [ht, if_true] at h
          obtain ⟨rfl, rfl⟩ : _ ∧ _ := by
            have := h
            injection this with h1
            injection h1 with h2 h3
            exact ⟨h2.symm, h3.symm⟩
          simp [isChildRequest, List.filter_append,
            filter_isChildRequest_parentTransition, filter_isChildRequest_map_cancel]
        · simp only [eq_false_of_ne_true ht, if_false] at h
          cases h

/-- Witness for C9 at a concrete cancel call: a succeeded child and a
non-workflow child receive no request; the running workflow child does. -/
theorem cascade_child_filter_witness :
    ([LifecycleEvent.execUpdate (Val.s "ex1") "CANCELLED",
      LifecycleEvent.requestCancellation "lv2"] : List LifecycleEvent).filter
        isChildRequest =
      [LifecycleEvent.requestCancellation "lv2"] :=
  (cascade_child_filter
    { context := [("mistral", Val.d [("execution_id", Val.s "ex1")])],
      children := [⟨"mistral-v2", .succeeded, "lv1"⟩, ⟨"mistral-v2", .running, "lv2"⟩,
        ⟨"python-script", .running, "lv3"⟩],
      workflowRunnerTypes := ["action-chain", "mistral-v2"],
      cancelableStatuses := [.running, .pausing, .paused, .resuming] }).2.2
    [.execUpdate (Val.s "ex1") "CANCELLED", .requestCancellation "lv2"] .canceling rfl

/-- A remote task execution as listed by `tasks.list` (the fields the
rerun resolver reads; the source keeps the whole `to_dict()` record of
which only `id` is used afterwards). -/
structure TaskEx where
  name : String
  id : String
  state : String
deriving Repr, DecidableEq, Inhabited

/-- A remote workflow execution, with `task_execution_id` absent when the
source's `getattr(wf_ex, 'task_execution_id', None)` yields `None`. -/
structure WfEx where
  id : String
  taskExecutionId : Option String
  state : String
  workflowName : String
deriving Repr, DecidableEq

/-- The remote engine as the rerun resolver queries it: `executions.get`
(`none` when the client raises not-found), `executions.list`, and
`tasks.list(workflow_execution_id=...)`. -/
structure RerunEnv where
  executionGet : Val → Option WfEx
  executionsList : List WfEx
  tasksList : String → List TaskEx

/-- Requested task names are dotted paths; they are embedded pre-split on
the dots, so `"A.B"` becomes `["A", "B"]` and the source's
`task_name[:dot_pos]` / `task_name[dot_pos + 1:]` become head and tail. -/
abbrev TaskName := List String

/-- The `tasks` dictionary accumulated by `_get_tasks`, keyed by the full
requested task name. -/
abbrev TasksMap := List (TaskName × TaskEx)

/-- `tasks[k] = t` with Python dict-assignment semantics. -/
def tmSet : TasksMap → TaskName → TaskEx → TasksMap
  | [], k, t => [(k, t)]
  | (k₀, t₀) :: rest, k, t =>
      if k₀ = k then (k₀, t) :: rest else (k₀, t₀) :: tmSet rest k t

/-- `tasks.get(k)`. -/
def tmLookup : TasksMap → TaskName → Option TaskEx
  | [], _ => none
  | (k₀, t₀) :: rest, k => if k₀ = k then some t₀ else tmLookup rest k

/-- `m1.update(m2)`. -/
def tmUpdate (m₁ m₂ : TasksMap) : TasksMap :=
  m₂.foldl (fun acc kv => tmSet acc kv.1 kv.2) m₁

/-- `reset` flag of a requested name in `task_specs`. -/
def slookup : List (TaskName × Bool) → TaskName → Option Bool
  | [], _ => none
  | (k₀, b) :: rest, k => if k₀ = k then some b else slookup rest k

/-- `MistralRunner._get_tasks(wf_ex_id, full_task_name, task_name,
executions)`.  A dotted name recurses into every execution of the global
list whose (truthy) `task_execution_id` matches a task named with the head
segment in the current scope, merging the recursive dictionaries; the base
case keeps, under the full requested name, the task executions of the
current scope with the leaf name and `ERROR` state (the dict comprehension
keys them all by `full_task_name`, so later matches overwrite earlier
ones). -/
def getTasks (env : RerunEnv) (wfExId : String) (fullName : TaskName) :
    TaskName → TasksMap
  | [] => []
  | [leaf] =>
      ((env.tasksList wfExId).filter
          (fun t => t.name == leaf && t.state == "ERROR")).foldl
        (fun m t => tmSet m fullName t) []
  | parentSeg :: rest =>
      let taskExs := env.tasksList wfExId
      let parentTaskIds := (taskExs.filter (fun t => t.name == parentSeg)).map (·.id)
      let workflowExIds := (env.executionsList.filter (fun w =>
          match w.taskExecutionId with
          | some tid => tid != "" && parentTaskIds.contains tid
          | none => false)).map (·.id)
      workflowExIds.foldl (fun m sid => tmUpdate m (getTasks env sid fullName rest)) []

/-- The `tasks` dictionary accumulated over all requested names
(`resume_workflow` lines 342-345). -/
def resolvedTasks (env : RerunEnv) (rootExId : String)
    (taskSpecs : List (TaskName × Bool)) : TasksMap :=
  taskSpecs.foldl (fun m sp => tmUpdate m (getTasks env rootExId sp.1 sp.1)) []

/-- `list(set(task_specs.keys()) - set(tasks.keys()))` (list difference in
request order; the source's set difference has no fixed order). -/
def missingTargets (env : RerunEnv) (rootExId : String)
    (taskSpecs : List (TaskName × Bool)) : List TaskName :=
  (taskSpecs.map (·.1)).filter
    (fun n => (tmLookup (resolvedTasks env rootExId taskSpecs) n).isNone)

/-- One `tasks.rerun` client call: the task-execution id, the `reset`
flag, and `options.get('env', None)`. -/
structure RerunCall where
  taskId : String
  reset : Bool
  envBundle : Option Val
deriving Repr

/-- Failure modes of `resume_workflow` (each a generic `Exception` in the
source, modelled structurally with the data its message carries). -/
inductive RerunErr where
  | missingExecutionId
  | clientNotFound
  | notRerunable
  | unknownTasks (missing : List TaskName)
  | contextError (e : PyErr)
deriving Repr

/-- `MistralRunner.resume_workflow(ex_ref, task_specs)`: the list of rerun
calls issued (empty when the operation fails before the rerun loop)
together with the outcome.  `exRefContext` is `ex_ref.context`,
`selfContext` is `self.context`, and `opts` is the execution-options
bundle `self._construct_workflow_execution_options()` returns (its
construction reads st2common helpers outside this repository's source
tree, so the bundle is a parameter; `start_workflow` submits the same
bundle to `executions.create`). -/
def resumeWorkflow (env : RerunEnv) (exRefContext selfContext : Dict)
    (taskSpecs : List (TaskName × Bool)) (opts : Dict) :
    List RerunCall × Except RerunErr (LAStatus × Dict) :=
  match getMistralCtx exRefContext with
  | .error e => ([], .error (.contextError e))
  | .ok mctx =>
      if truthy (dlookup mctx "execution_id") then
        match env.executionGet ((dlookup mctx "execution_id").getD (.s "")) with
        | none => ([], .error .clientNotFound)
        | some execution =>
            if execution.state = "ERROR" then
              let tasks := resolvedTasks env execution.id taskSpecs
              let missing := missingTargets env execution.id taskSpecs
              if missing.isEmpty then
                let calls := tasks.map (fun kv =>
                  RerunCall.mk kv.2.id ((slookup taskSpecs kv.1).getD false)
                    (dlookup opts "env"))
                let current : Dict := [("execution_id", Val.s execution.id),
                  ("workflow_name", Val.s execution.workflowName)]
                match buildMistralContext selfContext current with
                | .error e => (calls, .error (.contextError e))
                | .ok ctx => (calls, .ok (.running, ctx))
              else ([], .error (.unknownTasks missing))
            else ([], .error .notRerunable)
      else ([], .error .missingExecutionId)

theorem mem_tmSet (m : TasksMap) (k : TaskName) (t : TaskEx) :
    ∀ kv ∈ tmSet m k t, kv ∈ m ∨ kv = (k, t) := by
  induction m with
  | nil => intro kv h; simp [tmSet] at h; exact Or.inr h
  | cons hd rest ih =>
      obtain ⟨k₀, t₀⟩ := hd
      intro kv h
      by_cases hk : k₀ = k
      · simp [tmSet, hk] at h
        rcases h with h | h
        · subst hk h; exact Or.inr rfl
        · exact Or.inl (List.mem_cons_of_mem _ h)
      · simp [tmSet, hk] at h
        rcases h with h | h
        · exact Or.inl (by simp [h])
        · rcases ih kv h with h' | h'
          · exact Or.inl (List.mem_cons_of_mem _ h')
          · exact Or.inr h'

theorem mem_keys_tmSet (m : TasksMap) (k : TaskName) (t : TaskEx) (key : TaskName) :
    key ∈ (tmSet m k t).map Prod.fst ↔ key ∈ m.map Prod.fst ∨ key = k := by
  induction m with
  | nil => simp [tmSet]
  | cons hd rest ih =>
      obtain ⟨k₀, t₀⟩ := hd
      by_cases hk : k₀ = k
      · subst hk
        simp [tmSet]
        tauto
      · simp [tmSet, hk, ih]
        tauto

theorem tmSet_keys_nodup (m : TasksMap) (k : TaskName) (t : TaskEx)
    (h : (m.map Prod.fst).Nodup) : ((tmSet m k t).map Prod.fst).Nodup := by
  induction m with
  | nil => simp [tmSet]
  | cons hd rest ih =>
      obtain ⟨k₀, t₀⟩ := hd
      simp at h
      by_cases hk : k₀ = k
      · simpa [tmSet, hk] using h
      · simp [tmSet, hk]
        refine ⟨?_, ih h.2⟩
        intro x hx
        rcases mem_tmSet rest k t (k₀, x) hx with h' | h'
        · exact h.1 x h'
        · exact hk (congrArg Prod.fst h')

theorem tmUpdate_keys_nodup (m x : TasksMap) (h : (m.map Prod.fst).Nodup) :
    ((tmUpdate m x).map Prod.fst).Nodup := by
  induction x generalizing m with
  | nil => exact h
  | cons hd rest ih => exact ih _ (tmSet_keys_nodup m hd.1 hd.2 h)

/-- Every dictionary `_get_tasks` returns is keyed solely by the full
requested name: it is empty or a single entry `(fullName, t)` with `t` in
`ERROR` state (the dict comprehension and the recursive merges all key by
`full_task_name`, so matches overwrite one another). -/
theorem getTasks_shape (env : RerunEnv) (fullName : TaskName) :
    ∀ (nm : TaskName) (wfExId : String), getTasks env wfExId fullName nm = [] ∨
      ∃ t, getTasks env wfExId fullName nm = [(fullName, t)] ∧ t.state = "ERROR" := by
  have fold_tmSet : ∀ (l : List TaskEx) (acc : TasksMap),
      (∀ t ∈ l, t.state = "ERROR") →
      (acc = [] ∨ ∃ t, acc = [(fullName, t)] ∧ t.state = "ERROR") →
      (l.foldl (fun m t => tmSet m fullName t) acc = [] ∨
        ∃ t, l.foldl (fun m t => tmSet m fullName t) acc = [(fullName, t)] ∧
          t.state = "ERROR") := by
    intro l
    induction l with
    | nil => intro acc _ hacc; exact hacc
    | cons hd rest ih =>
        intro acc hl hacc
        refine ih _ (fun t ht => hl t (List.mem_cons_of_mem _ ht)) ?_
        rcases hacc with rfl | ⟨t, rfl, _⟩
        · exact Or.inr ⟨hd, rfl, hl hd (List.mem_cons_self _ _)⟩
        · exact Or.inr ⟨hd, by simp [tmSet], hl hd (List.mem_cons_self _ _)⟩
  intro nm
  induction nm with
  | nil => intro wfExId; exact Or.inl rfl
  | cons seg rest ih =>
      intro wfExId
      cases rest with
      | nil =>
          refine fold_tmSet _ [] ?_ (Or.inl rfl)
          intro t ht
          simp only [List.mem_filter, Bool.and_eq_true, beq_iff_eq] at ht
          exact ht.2.2
      | cons seg₂ rest₂ =>
          have fold_tmUpdate : ∀ (l : List String) (acc : TasksMap),
              (acc = [] ∨ ∃ t, acc = [(fullName, t)] ∧ t.state = "ERROR") →
              (l.foldl (fun m sid => tmUpdate m (getTasks env sid fullName
                  (seg₂ :: rest₂))) acc = [] ∨
                ∃ t, l.foldl (fun m sid => tmUpdate m (getTasks env sid fullName
                  (seg₂ :: rest₂))) acc = [(fullName, t)] ∧ t.state = "ERROR") := by
            intro l
            induction l with
            | nil => intro acc hacc; exact hacc
            | cons sid restIds ihIds =>
                intro acc hacc
                refine ihIds _ ?_
                dsimp only
                rcases ih sid with hsub | ⟨t, hsub, ht⟩
                · rw [hsub]; exact hacc
                · rw [hsub]
                  rcases hacc with rfl | ⟨t', rfl, _⟩
                  · exact Or.inr ⟨t, by simp [tmUpdate, tmSet], ht⟩
                  · exact Or.inr ⟨t, by simp [tmUpdate, tmSet], ht⟩
          show List.foldl (fun m sid => tmUpdate m (getTasks env sid fullName
              (seg₂ :: rest₂))) [] _ = [] ∨
            ∃ t, List.foldl (fun m sid => tmUpdate m (getTasks env sid fullName
              (seg₂ :: rest₂))) [] _ = [(fullName, t)] ∧ t.state = "ERROR"
          exact fold_tmUpdate _ [] (Or.inl rfl)

/-- Every entry of the resolved-tasks dictionary is keyed by one of the
requested names and holds a task execution in `ERROR` state. -/
theorem resolvedTasks_entries (env : RerunEnv) (rootExId : String)
    (specs : List (TaskName × Bool)) :
    ∀ kv ∈ resolvedTasks env rootExId specs,
      kv.1 ∈ specs.map (·.1) ∧ kv.2.state = "ERROR" := by
  have aux : ∀ (l : List (TaskName × Bool)) (acc : TasksMap)
      (names : List TaskName),
      (∀ kv ∈ acc, kv.1 ∈ names ∧ kv.2.state = "ERROR") →
      (∀ sp ∈ l, sp.1 ∈ names) →
      ∀ kv ∈ l.foldl (fun m sp => tmUpdate m (getTasks env rootExId sp.1 sp.1)) acc,
        kv.1 ∈ names ∧ kv.2.state = "ERROR" := by
    intro l
    induction l with
    | nil => intro acc names hacc _ kv hkv; exact hacc kv hkv
    | cons sp rest ih =>
        intro acc names hacc hl kv hkv
        refine ih _ names ?_ (fun q hq => hl q (List.mem_cons_of_mem _ hq)) kv hkv
        intro kv' hkv'
        dsimp only at hkv'
        rcases getTasks_shape env sp.1 sp.1 rootExId with hs | ⟨t, hs, ht⟩
        · rw [hs] at hkv'
          exact hacc kv' hkv'
        · rw [hs] at hkv'
          simp only [tmUpdate, List.foldl_cons, List.foldl_nil] at hkv'
          rcases mem_tmSet acc sp.1 t kv' hkv' with h' | h'
          · exact hacc kv' h'
          · subst h'
            exact ⟨hl sp (List.mem_cons_self _ _), ht⟩
  intro kv hkv
  exact aux specs [] (specs.map (·.1)) (by simp) (fun sp hsp => List.mem_map_of_mem _ hsp)
    kv hkv

/-- The resolved-tasks dictionary has no duplicate keys: at most one rerun
is issued per requested name. -/
theorem resolvedTasks_keys_nodup (env : RerunEnv) (rootExId : String)
    (specs : List (TaskName × Bool)) :
    ((resolvedTasks env rootExId specs).map Prod.fst).Nodup := by
  have aux : ∀ (l : List (TaskName × Bool)) (acc : TasksMap),
      (acc.map Prod.fst).Nodup →
      ((l.foldl (fun m sp => tmUpdate m (getTasks env rootExId sp.1 sp.1))
        acc).map Prod.fst).Nodup := by
    intro l
    induction l with
    | nil => intro acc hacc; exact hacc
    | cons sp rest ih => intro acc hacc; exact ih _ (tmUpdate_keys_nodup _ _ hacc)
  exact aux specs [] (by simp)

/-- An engine in which the dotted request `A.B` matches failed `B` tasks in
two different sub-executions (`sub1` spawned by task `tA1`, `sub2` by
`tA2`). -/
def twoMatchEnv : RerunEnv where
  executionGet := fun v => match v with
    | .s "ex1" => some ⟨"ex1", none, "ERROR", "wf"⟩
    | _ => none
  executionsList := [⟨"ex1", none, "ERROR", "wf"⟩, ⟨"sub1", some "tA1", "RUNNING", "wfA"⟩,
    ⟨"sub2", some "tA2", "RUNNING", "wfA"⟩]
  tasksList := fun wfExId =>
    if wfExId = "ex1" then [⟨"A", "tA1", "SUCCESS"⟩, ⟨"A", "tA2", "SUCCESS"⟩]
    else if wfExId = "sub1" then [⟨"B", "tB1", "ERROR"⟩]
    else if wfExId = "sub2" then [⟨"B", "tB2", "ERROR"⟩]
    else []

/-- `ex_ref.context` pointing at execution `ex1`. -/
def twoMatchExRef : Dict := [("mistral", Val.d [("execution_id", Val.s "ex1")])]

/-- An options bundle with an `env` member. -/
def twoMatchOpts : Dict := [("env", Val.d [("st2_execution_id", Val.s "liveex")])]

/-- Claim C3 (counterexample): requesting rerun of `A.B` where failed `B`
task-executions exist in both sub-execution scopes (`tB1` under `sub1`,
`tB2` under `sub2`, as the per-scope resolutions show) issues exactly one
rerun call — for `tB2` only — because `_get_tasks` keys every match by the
full requested name and later scopes overwrite earlier ones; the claimed
one-call-per-match behavior fails. -/
theorem resumeWorkflow_one_rerun_for_two_matches :
    getTasks twoMatchEnv "sub1" ["A", "B"] ["B"] =
      [(["A", "B"], ⟨"B", "tB1", "ERROR"⟩)] ∧
    getTasks twoMatchEnv "sub2" ["A", "B"] ["B"] =
      [(["A", "B"], ⟨"B", "tB2", "ERROR"⟩)] ∧
    (resumeWorkflow twoMatchEnv twoMatchExRef [] [(["A", "B"], true)] twoMatchOpts).1 =
      [⟨"tB2", true, some (Val.d [("st2_execution_id", Val.s "liveex")])⟩] :=
  ⟨rfl, rfl, rfl⟩

/-- Claim C3 (amended): when resume_workflow reaches the rerun loop, it
issues exactly one rerun call per entry of the resolved-tasks dictionary —
which is keyed by the full requested name, with no duplicate keys, so at
most one call per requested name even when several failed task-executions
match — and every call carries that name's requested reset flag and the
`env` member of the same execution-options bundle that `start_workflow`
submits; every resolved entry is a task-execution in `ERROR` state. -/
theorem resumeWorkflow_rerun_calls (env : RerunEnv) (exRefCtx selfCtx : Dict)
    (specs : List (TaskName × Bool)) (opts : Dict) (mctx : Dict) (ex : WfEx)
    (h₁ : getMistralCtx exRefCtx = .ok mctx)
    (h₂ : truthy (dlookup mctx "execution_id") = true)
    (h₃ : env.executionGet ((dlookup mctx "execution_id").getD (.s "")) = some ex)
    (h₄ : ex.state = "ERROR")
    (h₅ : missingTargets env ex.id specs = []) :
    (resumeWorkflow env exRefCtx selfCtx specs opts).1 =
      (resolvedTasks env ex.id specs).map (fun kv =>
        RerunCall.mk kv.2.id ((slookup specs kv.1).getD false) (dlookup opts "env")) ∧
    (∀ kv ∈ resolvedTasks env ex.id specs,
      kv.1 ∈ specs.map (·.1) ∧ kv.2.state = "ERROR") ∧
    ((resolvedTasks env ex.id specs).map Prod.fst).Nodup := by
  refine ⟨?_, resolvedTasks_entries env ex.id specs, resolvedTasks_keys_nodup env ex.id specs⟩
  simp only [resumeWorkflow, h₁, h₂, h₃, h₄, h₅, List.isEmpty_nil, if_true, ite_true]
  cases hb : buildMistralContext selfCtx [("execution_id", Val.s ex.id),
      ("workflow_name", Val.s ex.workflowName)] <;> simp [hb]

/-- Witness for the amended C3 at the two-match scenario. -/
theorem resumeWorkflow_rerun_calls_witness :
    (resumeWorkflow twoMatchEnv twoMatchExRef [] [(["A", "B"], true)] twoMatchOpts).1 =
      (resolvedTasks twoMatchEnv "ex1" [(["A", "B"], true)]).map (fun kv =>
        RerunCall.mk kv.2.id ((slookup [(["A", "B"], true)] kv.1).getD false)
          (dlookup twoMatchOpts "env")) ∧
    (∀ kv ∈ resolvedTasks twoMatchEnv "ex1" [(["A", "B"], true)],
      kv.1 ∈ ([(["A", "B"], true)] : List (TaskName × Bool)).map (·.1) ∧
        kv.2.state = "ERROR") ∧
    ((resolvedTasks twoMatchEnv "ex1" [(["A", "B"], true)]).map Prod.fst).Nodup :=
  resumeWorkflow_rerun_calls twoMatchEnv twoMatchExRef [] [(["A", "B"], true)]
    twoMatchOpts [("execution_id", Val.s "ex1")] ⟨"ex1", none, "ERROR", "wf"⟩
    rfl rfl rfl rfl rfl

/-- Claim C4: when any requested rerun name resolves to no failed
task-execution, resume_workflow returns the unknown-targets error carrying
the full list of unresolved names — every requested name that resolves to
nothing is in the reported list — and issues zero rerun calls. -/
theorem resumeWorkflow_unknown_targets (env : RerunEnv) (exRefCtx selfCtx : Dict)
    (specs : List (TaskName × Bool)) (opts : Dict) (mctx : Dict) (ex : WfEx)
    (h₁ : getMistralCtx exRefCtx = .ok mctx)
    (h₂ : truthy (dlookup mctx "execution_id") = true)
    (h₃ : env.executionGet ((dlookup mctx "execution_id").getD (.s "")) = some ex)
    (h₄ : ex.state = "ERROR")
    (h₅ : missingTargets env ex.id specs ≠ []) :
    resumeWorkflow env exRefCtx selfCtx specs opts =
      ([], .error (.unknownTasks (missingTargets env ex.id specs))) ∧
    ∀ n ∈ specs.map (·.1),
      (tmLookup (resolvedTasks env ex.id specs) n).isNone = true →
        n ∈ missingTargets env ex.id specs := by
  constructor
  · have hne : (missingTargets env ex.id specs).isEmpty = false := by
      cases hmt : missingTargets env ex.id specs with
      | nil => exact absurd hmt h₅
      | cons a l => rfl
    simp only [resumeWorkflow, h₁, h₂, h₃, h₄, hne, if_true, ite_true,
      Bool.false_eq_true, ite_false]
  · intro n hn hnone
    simp only [missingTargets, List.mem_filter]
    exact ⟨hn, hnone⟩

/-- An engine where requested name `A` resolves to a failed task but `X`
resolves to nothing. -/
def unknownTargetEnv : RerunEnv where
  executionGet := fun v => match v with
    | .s "ex9" => some ⟨"ex9", none, "ERROR", "wf"⟩
    | _ => none
  executionsList := [⟨"ex9", none, "ERROR", "wf"⟩]
  tasksList := fun wfExId =>
    if wfExId = "ex9" then [⟨"A", "t1", "ERROR"⟩] else []

/-- Witness for C4: requesting `A` (resolvable) and `X` (unresolvable)
yields the unknown-targets error naming `X` and an empty rerun trace. -/
theorem resumeWorkflow_unknown_targets_witness :
    resumeWorkflow unknownTargetEnv
        [("mistral", Val.d [("execution_id", Val.s "ex9")])] []
        [(["A"], false), (["X"], true)] [] =
      ([], .error (.unknownTasks [["X"]])) ∧
    ∀ n ∈ ([(["A"], false), (["X"], true)] : List (TaskName × Bool)).map (·.1),
      (tmLookup (resolvedTasks unknownTargetEnv "ex9"
          [(["A"], false), (["X"], true)]) n).isNone = true →
        n ∈ missingTargets unknownTargetEnv "ex9" [(["A"], false), (["X"], true)] :=
  resumeWorkflow_unknown_targets unknownTargetEnv
    [("mistral", Val.d [("execution_id", Val.s "ex9")])] []
    [(["A"], false), (["X"], true)] [] [("execution_id", Val.s "ex9")]
    ⟨"ex9", none, "ERROR", "wf"⟩ rfl rfl rfl rfl (by decide)

/-! Heap model for the two in-place-mutation questions: dictionary objects
live at addresses, values are string leaves or references, and every
Python statement reads the current heap and writes through it, so aliasing
between `self.runner_parameters['context']`, `copy.deepcopy` results and
local names is explicit. -/

/-- A heap value: a string leaf or a reference to a dictionary object. -/
inductive HVal where
  | str : String → HVal
  | ref : Nat → HVal
deriving Repr, DecidableEq

/-- The contents of one dictionary object. -/
abbrev HDict := List (String × HVal)

/-- A heap: contents by address plus the next fresh address (every live
object sits below `next`). -/
structure Heap where
  store : Nat → HDict
  next : Nat

/-- Read an object's contents. -/
def Heap.get (h : Heap) (a : Nat) : HDict := h.store a

/-- Overwrite an object's contents in place. -/
def Heap.set (h : Heap) (a : Nat) (d : HDict) : Heap :=
  ⟨fun x => if x = a then d else h.store x, h.next⟩

/-- Allocate a fresh dictionary object. -/
def Heap.alloc (h : Heap) (d : HDict) : Heap × Nat :=
  (⟨fun x => if x = h.next then d else h.store x, h.next + 1⟩, h.next)

/-- `d.get(k)` over heap dictionaries. -/
def hdlookup : HDict → String → Option HVal
  | [], _ => none
  | (k, v) :: rest, key => if k = key then some v else hdlookup rest key

/-- `d[k] = v` over heap dictionaries. -/
def hdset : HDict → String → HVal → HDict
  | [], key, v => [(key, v)]
  | (k, w) :: rest, key, v =>
      if k = key then (k, v) :: rest else (k, w) :: hdset rest key v

/-- `del d[k]` over heap dictionaries. -/
def hddel : HDict → String → HDict
  | [], _ => []
  | (k, w) :: rest, key =>
      if k = key then hddel rest key else (k, w) :: hddel rest key

/-- `d1.update(d2)` over heap dictionaries. -/
def hdupdate (d₁ d₂ : HDict) : HDict :=
  d₂.foldl (fun acc kv => hdset acc kv.1 kv.2) d₁

/-- Copy a dictionary's entries with `f` applied to every value, threading
the heap left to right. -/
def copyEntries (f : Heap → HVal → Heap × HVal) : Heap → HDict → Heap × HDict
  | h, [] => (h, [])
  | h, (k, v) :: rest =>
      let r := f h v
      let r₂ := copyEntries f r.1 rest
      (r₂.1, (k, r.2) :: r₂.2)

/-- `copy.deepcopy` of a value: strings are shared, references get a fresh
object holding a recursive copy.  `fuel` bounds the copied reference
depth; with enough fuel the copy is faithful, and with any fuel the copy
allocates only fresh objects — which is all the frame theorem relies
on. -/
def deepcopyVal : Nat → Heap → HVal → Heap × HVal
  | _, h, .str s => (h, .str s)
  | 0, h, .ref _ =>
      let p := h.alloc []
      (p.1, .ref p.2)
  | fuel + 1, h, .ref a =>
      let r := copyEntries (deepcopyVal fuel) h (h.get a)
      let p := r.1.alloc r.2
      (p.1, .ref p.2)

/-- `MistralRunner._build_mistral_context(parent, current)` over the heap
model.  `parentOpt` is the caller's context object (`none` for a `None`
context), `current` the current-fields dictionary object.  The first line
rebinds the local name `parent` to a deep copy, so every subsequent
mutation (`del orig_parent_context[...]`, `context['mistral'].update`,
key assignments) targets the copy or fresh objects, never the caller's
object graph.  Returns the heap after the call and the address of the
result object (or the `AttributeError` raised when the parent's `mistral`
entry is a string). -/
def buildMistralContextHeap (fuel : Nat) (h₀ : Heap) (parentOpt : Option Nat)
    (current : Nat) : Heap × Except PyErr Nat :=
  -- parent = copy.deepcopy(parent)
  let cp : Heap × Option Nat :=
    match parentOpt with
    | none => (h₀, none)
    | some pa =>
        match deepcopyVal fuel h₀ (.ref pa) with
        | (h₁, .ref pa') => (h₁, some pa')
        | (h₁, .str _) => (h₁, none)
  let h₁ := cp.1
  -- context = dict()
  let al := h₁.alloc []
  let h₂ := al.1
  let ctxA := al.2
  match cp.2 with
  | none =>
      -- `if not parent:` (None): context['mistral'] = current
      (h₂.set ctxA [("mistral", .ref current)], .ok ctxA)
  | some pa' =>
      if (h₂.get pa').isEmpty then
        -- `if not parent:` (empty dict)
        (h₂.set ctxA [("mistral", .ref current)], .ok ctxA)
      else
        match hdlookup (h₂.get pa') "mistral" with
        | none =>
            -- 'mistral' not in parent.keys()
            (h₂.set ctxA [("mistral", .ref current)], .ok ctxA)
        | some (.str _) =>
            -- orig_parent_context.keys() on a string
            (h₂, .error .attributeError)
        | some (.ref ma) =>
            -- orig_parent_context aliases the copy's sub-dict at ma
            -- actual_parent = dict()
            let al₂ := h₂.alloc []
            let h₃ := al₂.1
            let apA := al₂.2
            -- extract workflow_name
            let h₄ :=
              match hdlookup (h₃.get ma) "workflow_name" with
              | some v =>
                  let hA := h₃.set apA (hdset (h₃.get apA) "workflow_name" v)
                  hA.set ma (hddel (hA.get ma) "workflow_name")
              | none => h₃
            -- extract workflow_execution_id
            let h₅ :=
              match hdlookup (h₄.get ma) "workflow_execution_id" with
              | some v =>
                  let hB := h₄.set apA (hdset (h₄.get apA) "workflow_execution_id" v)
                  hB.set ma (hddel (hB.get ma) "workflow_execution_id")
              | none => h₄
            -- context['mistral'] = orig_parent_context
            let h₆ := h₅.set ctxA (hdset (h₅.get ctxA) "mistral" (.ref ma))
            -- context['mistral'].update(current)
            let h₇ := h₆.set ma (hdupdate (h₆.get ma) (h₆.get current))
            -- context['mistral']['parent'] = actual_parent
            let h₈ := h₇.set ma (hdset (h₇.get ma) "parent" (.ref apA))
            (h₈, .ok ctxA)

/-- `start_workflow` lines 247-249: `inputs =
self.runner_parameters.get('context', dict())` followed by
`inputs.update(action_parameters)`.  When the runner parameters carry a
`context` entry, `inputs` is that very object and the update mutates it in
place; only when the entry is absent is a fresh dictionary allocated. -/
def startWorkflowInputs (h₀ : Heap) (rp ap : Nat) : Heap × Except PyErr Nat :=
  match hdlookup (h₀.get rp) "context" with
  | some (.ref ca) => (h₀.set ca (hdupdate (h₀.get ca) (h₀.get ap)), .ok ca)
  | some (.str _) => (h₀, .error .attributeError)
  | none =>
      let al := h₀.alloc []
      (al.1.set al.2 (hdupdate [] (h₀.get ap)), .ok al.2)

/-- `hcur` extends `h₀`: no address live in `h₀` has been overwritten and
no address below `h₀.next` has been reused. -/
def FrameOk (h₀ hcur : Heap) : Prop :=
  h₀.next ≤ hcur.next ∧ ∀ a < h₀.next, hcur.store a = h₀.store a

theorem FrameOk.refl (h₀ : Heap) : FrameOk h₀ h₀ :=
  ⟨le_refl _, fun _ _ => rfl⟩

theorem FrameOk.trans {h₀ h₁ h₂ : Heap} (hab : FrameOk h₀ h₁) (hbc : FrameOk h₁ h₂) :
    FrameOk h₀ h₂ :=
  ⟨le_trans hab.1 hbc.1,
   fun a ha => (hbc.2 a (lt_of_lt_of_le ha hab.1)).trans (hab.2 a ha)⟩

theorem FrameOk.set {h₀ hcur : Heap} (hf : FrameOk h₀ hcur) (t : Nat) (d : HDict)
    (ht : h₀.next ≤ t) : FrameOk h₀ (hcur.set t d) := by
  refine ⟨hf.1, ?_⟩
  intro a ha
  have hne : a ≠ t := by omega
  simpa [Heap.set, hne] using hf.2 a ha

theorem FrameOk.alloc {h₀ hcur : Heap} (hf : FrameOk h₀ hcur) (d : HDict) :
    FrameOk h₀ ((hcur.alloc d).1) := by
  have h1 := hf.1
  refine ⟨?_, ?_⟩
  · simp only [Heap.alloc]
    omega
  · intro a ha
    have hne : a ≠ hcur.next := by omega
    simpa [Heap.alloc, hne] using hf.2 a ha

/-- A value's references, if any, fall in the address range `[lo, hi)`. -/
def refBetween (lo hi : Nat) : HVal → Prop
  | .ref c => lo ≤ c ∧ c < hi
  | .str _ => True

theorem refBetween.mono {lo hi lo' hi' : Nat} (hlo : lo' ≤ lo) (hhi : hi ≤ hi')
    {v : HVal} (h : refBetween lo hi v) : refBetween lo' hi' v := by
  cases v with
  | str s => trivial
  | ref c => exact ⟨le_trans hlo h.1, lt_of_lt_of_le h.2 hhi⟩

/-- Every dictionary stored in the address region `[lo, hi)` of `h` only
holds references into `[lo, hi)`. -/
def regionRefsOk (h : Heap) (lo hi : Nat) : Prop :=
  ∀ b, lo ≤ b → b < hi → ∀ kw ∈ h.store b, refBetween lo hi kw.2

theorem mem_of_hdlookup (d : HDict) (k : String) (v : HVal)
    (h : hdlookup d k = some v) : (k, v) ∈ d := by
  induction d with
  | nil => cases h
  | cons hd rest ih =>
      obtain ⟨k₀, w⟩ := hd
      by_cases hk : k₀ = k
      · subst hk
        simp [hdlookup] at h
        simp [h]
      · simp [hdlookup, hk] at h
        exact List.mem_cons_of_mem _ (ih h)

/-- `copyEntries` with a copier `f` that writes only fresh objects: the
original region is untouched, the produced entries reference only the new
region, and new-region dictionaries reference only the new region. -/
theorem copyEntries_spec (f : Heap → HVal → Heap × HVal)
    (hf : ∀ h v, FrameOk h (f h v).1 ∧ refBetween h.next (f h v).1.next (f h v).2 ∧
      regionRefsOk (f h v).1 h.next (f h v).1.next) :
    ∀ (d : HDict) (h : Heap),
      FrameOk h (copyEntries f h d).1 ∧
      (∀ kw ∈ (copyEntries f h d).2, refBetween h.next (copyEntries f h d).1.next kw.2) ∧
      regionRefsOk (copyEntries f h d).1 h.next (copyEntries f h d).1.next := by
  intro d
  induction d with
  | nil =>
      intro h
      refine ⟨FrameOk.refl h, by simp [copyEntries], ?_⟩
      intro b hb₁ hb₂
      simp only [copyEntries] at hb₂
      omega
  | cons hd rest ih =>
      intro h
      obtain ⟨k, v⟩ := hd
      obtain ⟨hf1, hf2, hf3⟩ := hf h v
      obtain ⟨ih1, ih2, ih3⟩ := ih (f h v).1
      simp only [copyEntries]
      refine ⟨hf1.trans ih1, ?_, ?_⟩
      · intro kw hkw
        rcases List.mem_cons.mp hkw with rfl | hkw'
        · exact hf2.mono (le_refl _) ih1.1
        · exact (ih2 kw hkw').mono hf1.1 (le_refl _)
      · intro b hb₁ hb₂ kw hkw
        by_cases hbsplit : b < (f h v).1.next
        · rw [ih1.2 b hbsplit] at hkw
          exact (hf3 b hb₁ hbsplit kw hkw).mono (le_refl _) ih1.1
        · push_neg at hbsplit
          exact (ih3 b hbsplit hb₂ kw hkw).mono hf1.1 (le_refl _)

/-- `deepcopyVal` writes only fresh objects: the original region is
untouched, the returned value references only the new region, and
new-region dictionaries reference only the new region. -/
theorem deepcopyVal_spec :
    ∀ (fuel : Nat) (h : Heap) (v : HVal),
      FrameOk h (deepcopyVal fuel h v).1 ∧
      refBetween h.next (deepcopyVal fuel h v).1.next (deepcopyVal fuel h v).2 ∧
      regionRefsOk (deepcopyVal fuel h v).1 h.next (deepcopyVal fuel h v).1.next := by
  intro fuel
  induction fuel with
  | zero =>
      intro h v
      cases v with
      | str s =>
          refine ⟨FrameOk.refl h, trivial, ?_⟩
          intro b hb₁ hb₂
          simp [deepcopyVal] at hb₁ hb₂
          omega
      | ref a =>
          refine ⟨(FrameOk.refl h).alloc [], ?_, ?_⟩
          · exact ⟨le_refl _, by simp [deepcopyVal, Heap.alloc]⟩
          · intro b hb₁ hb₂ kw hkw
            simp only [deepcopyVal, Heap.alloc] at hb₂ hkw
            have hb : b = h.next := by omega
            subst hb
            simp at hkw
  | succ fuel ih =>
      intro h v
      cases v with
      | str s =>
          refine ⟨FrameOk.refl h, trivial, ?_⟩
          intro b hb₁ hb₂
          simp [deepcopyVal] at hb₁ hb₂
          omega
      | ref a =>
          obtain ⟨ce1, ce2, ce3⟩ := copyEntries_spec (deepcopyVal fuel) ih (h.get a) h
          simp only [deepcopyVal]
          refine ⟨ce1.alloc _, ?_, ?_⟩
          · exact ⟨ce1.1, by simp [Heap.alloc]⟩
          · intro b hb₁ hb₂ kw hkw
            simp only [Heap.alloc] at hb₂ hkw
            by_cases hb : b = (copyEntries (deepcopyVal fuel) h (h.get a)).1.next
            · rw [if_pos hb] at hkw
              exact (ce2 kw hkw).mono (le_refl _) (by simp [Heap.alloc])
            · rw [if_neg hb] at hkw
              have hblt : b < (copyEntries (deepcopyVal fuel) h (h.get a)).1.next := by
                omega
              exact (ce3 b hb₁ hblt kw hkw).mono (le_refl _) (by simp [Heap.alloc])

/-- Claim C6: the context merger performs no mutation of the caller's
context.  Whatever branch runs, every dictionary object that existed
before the call — any address below `h₀.next`, which covers the parent
context object and, in a well-formed heap, everything reachable from it —
holds exactly the same contents afterwards: the first statement rebinds
`parent` to a deep copy, and all subsequent deletes, updates and key
assignments hit the copy or freshly allocated objects. -/
theorem buildMistralContextHeap_no_mutation (fuel : Nat) (h₀ : Heap)
    (parentOpt : Option Nat) (current : Nat) :
    FrameOk h₀ (buildMistralContextHeap fuel h₀ parentOpt current).1 := by
  cases parentOpt with
  | none =>
      simp only [buildMistralContextHeap]
      exact ((FrameOk.refl h₀).alloc []).set _ _ (by simp [Heap.alloc])
  | some pa =>
      rcases hdc : deepcopyVal fuel h₀ (HVal.ref pa) with ⟨h₁, v⟩
      obtain ⟨dc1, dc2, dc3⟩ := deepcopyVal_spec fuel h₀ (HVal.ref pa)
      rw [hdc] at dc1 dc2 dc3
      simp only at dc1 dc2 dc3
      have hd1 := dc1.1
      cases v with
      | str s =>
          simp only [buildMistralContextHeap, hdc]
          exact (dc1.alloc []).set _ _ (by simp [Heap.alloc]; omega)
      | ref pa' =>
          have hpa'₁ : h₀.next ≤ pa' := dc2.1
          have hpa'₂ : pa' < h₁.next := dc2.2
          simp only [buildMistralContextHeap, hdc]
          split
          · exact (dc1.alloc []).set _ _ (by simp [Heap.alloc]; omega)
          · split
            · exact (dc1.alloc []).set _ _ (by simp [Heap.alloc]; omega)
            · exact dc1.alloc []
            · rename_i ma heq
              have hget : ((h₁.alloc []).1).get pa' = h₁.store pa' := by
                have hne : pa' ≠ h₁.next := by omega
                simp [Heap.get, Heap.alloc, hne]
              rw [hget] at heq
              have hma := dc3 pa' hpa'₁ hpa'₂ ("mistral", HVal.ref ma)
                (mem_of_hdlookup _ _ _ heq)
              have hma1 : h₀.next ≤ ma := hma.1
              split
              all_goals split
              all_goals
                repeat
                  first
                  | exact (dc1.alloc []).alloc []
                  | apply FrameOk.set
              all_goals
                first
                | exact hma1
                | (simp [Heap.alloc]; omega)

/-- Claim C10: when the runner parameters carry a `context` mapping, the
inputs construction of `start_workflow` returns that very object and
merges the action parameters into it in place: after the call the
caller-visible runner-parameter `context` object holds its old entries
updated with the action parameters. -/
theorem startWorkflowInputs_mutates_context (h₀ : Heap) (rp ap ca : Nat)
    (hc : hdlookup (h₀.get rp) "context" = some (.ref ca)) :
    startWorkflowInputs h₀ rp ap =
      (h₀.set ca (hdupdate (h₀.get ca) (h₀.get ap)), .ok ca) ∧
    ((startWorkflowInputs h₀ rp ap).1).store ca = hdupdate (h₀.get ca) (h₀.get ap) := by
  constructor
  · simp [startWorkflowInputs, hc]
  · simp [startWorkflowInputs, hc, Heap.set]

/-- Witness for C10: a concrete heap whose runner-parameter object 0 holds
`context ↦` object 1 with `{k: "old"}` and whose action-parameter object 2
holds `{p: "new"}` — after the call, object 1 (the caller's mapping)
contains the merged entries and differs from its pre-call contents. -/
theorem startWorkflowInputs_mutates_context_witness :
    ((startWorkflowInputs
        ⟨fun a => if a = 0 then [("context", HVal.ref 1)]
          else if a = 1 then [("k", HVal.str "old")]
          else if a = 2 then [("p", HVal.str "new")]
          else [], 3⟩ 0 2).1).store 1 =
      [("k", HVal.str "old"), ("p", HVal.str "new")] ∧
    [("k", HVal.str "old"), ("p", HVal.str "new")] ≠
      ([("k", HVal.str "old")] : HDict) :=
  ⟨(startWorkflowInputs_mutates_context
      ⟨fun a => if a = 0 then [("context", HVal.ref 1)]
        else if a = 1 then [("k", HVal.str "old")]
        else if a = 2 then [("p", HVal.str "new")]
        else [], 3⟩ 0 2 1 rfl).2,
   by decide⟩

end Mistral
